import Mathlib

/-!
Verification development for the `apple-health-export-parser-rs` repository.

The Rust source (`src/main.rs`) is shallowly embedded below:

* A Rust `&str` is modelled as a `List Char`; Rust indexes strings by UTF-8
  *bytes*, so we model the byte width of a character (`charBytes`, Rust's
  `char::len_utf8`) and byte-indexed slicing (`takeBytes`/`dropBytes`), which
  returns `none` exactly when Rust's slice operator would panic (index out of
  range or not on a character boundary).
* `str::parse::<u32>` / `str::parse::<i32>` are modelled by `parseU32` /
  `parseI32` (optional sign, one or more ASCII digits, bounds check).
* `is_in_last_12_months` consults `chrono::Utc::now()`; the clock is external,
  so the model takes the cutoff year/month (`(now - 365 days).year()/month()`)
  as explicit parameters.  The result is `Option Bool`: `none` models a panic
  of the byte slicing, `some b` a normal return.
* The per-unit XML parsing loop of `parse_records` is modelled as a state
  machine over a stream of `quick_xml` events (`XmlEvent`); the `quick_xml`
  lexer itself is an external crate and enters the model as a `tokenize`
  parameter.  Attribute values are `String`s: `parse_records` receives a Rust
  `&str`, and every attribute value produced by `quick_xml` from a `&str`
  input is a slice between ASCII quote characters, hence valid UTF-8, so the
  `std::str::from_utf8` checks in the source always succeed.
* The `workout_activity` module (`WorkoutActivityType::from_u32` and its
  `Display`) is not part of the sources provided; it is modelled from the
  spec (§4.5) where marked below.
-/

/-- Byte width of a character in UTF-8, Rust's `char::len_utf8`. -/
def charBytes (c : Char) : Nat :=
  if c.toNat < 0x80 then 1
  else if c.toNat < 0x800 then 2
  else if c.toNat < 0x10000 then 3
  else 4

/-- Rust `str::len`: the length of a string in UTF-8 bytes. -/
def utf8Len (s : List Char) : Nat :=
  (s.map charBytes).sum

/-- Rust byte-slicing `&s[0..n]`: take the characters spanning the first `n`
bytes; `none` when `n` overruns the string or falls inside a character
(the cases in which Rust panics). -/
def takeBytes : List Char → Nat → Option (List Char)
  | _, 0 => some []
  | [], _ + 1 => none
  | c :: s, n + 1 =>
    if charBytes c ≤ n + 1 then
      (takeBytes s (n + 1 - charBytes c)).map (fun l => c :: l)
    else none

/-- Rust byte-slicing `&s[n..]`: drop the characters spanning the first `n`
bytes; `none` when `n` overruns the string or falls inside a character. -/
def dropBytes : List Char → Nat → Option (List Char)
  | s, 0 => some s
  | [], _ + 1 => none
  | c :: s, n + 1 =>
    if charBytes c ≤ n + 1 then dropBytes s (n + 1 - charBytes c)
    else none

/-- Numeric value of a digit string, accumulated left to right as Rust's
integer `FromStr` does. -/
def digitsVal (l : List Char) : Nat :=
  l.foldl (fun acc c => acc * 10 + (c.toNat - 48)) 0

/-- All characters are ASCII digits. -/
def allDigits (l : List Char) : Bool :=
  l.all Char.isDigit

/-- One or more ASCII digits, without sign. -/
def parseDigits (l : List Char) : Option Nat :=
  if l ≠ [] ∧ allDigits l = true then some (digitsVal l) else none

/-- Rust `str::parse::<u32>`: optional `+`, digits, range check. -/
def parseU32 (s : List Char) : Option Nat :=
  let t := if s.head? = some '+' then s.tail else s
  (parseDigits t).bind (fun n => if n < 2 ^ 32 then some n else none)

/-- Rust `str::parse::<i32>`: optional sign, digits, range check. -/
def parseI32 (s : List Char) : Option Int :=
  if s.head? = some '-' then
    (parseDigits s.tail).bind
      (fun n => if n ≤ 2 ^ 31 then some (-(n : Int)) else none)
  else
    let t := if s.head? = some '+' then s.tail else s
    (parseDigits t).bind
      (fun n => if n ≤ 2 ^ 31 - 1 then some ((n : Int)) else none)

/-- The recency filter `is_in_last_12_months` (src/main.rs:47-65).  `cutoffYear`/`cutoffMonth`
stand for `(Utc::now() - Duration::days(365)).year()/month()` — the clock is
an external collaborator.  Returns `none` exactly when the Rust code panics:
the byte slices `date_str[0..4]` and `date_str[5..7]` are taken only after
the byte-length guard, but still panic when byte offset 4, 5 or 7 falls
inside a multi-byte character.  Parse failures become `0` via
`unwrap_or(0)`. -/
def is_in_last_12_months (cutoffYear : Int) (cutoffMonth : Nat)
    (s : List Char) : Option Bool :=
  if utf8Len s < 7 then some false
  else
    match takeBytes s 4 with
    | none => none
    | some ys =>
      match dropBytes s 5 with
      | none => none
      | some t =>
        match takeBytes t 2 with
        | none => none
        | some ms =>
          let year : Int := (parseI32 ys).getD 0
          let month : Nat := (parseU32 ms).getD 0
          some (if cutoffYear < year then true
                else if year = cutoffYear then decide (cutoffMonth ≤ month)
                else false)

/-- Modelled from the spec: the `workout_activity` module containing the
fixed enumeration `WorkoutActivityType` is not among the provided sources.
§4.5 describes "an explicit 'unknown' fallback that preserves or stringifies
the original code rather than failing"; we model it as a recognizable marker
wrapping the decimal rendering of the code. -/
def unknownFallback (c : Nat) : String :=
  "Unknown(" ++ toString c ++ ")"

/-- Model of `WorkoutActivityType::from_u32` followed by `Display`, generic in the
table of known codes. -/
def translateWith (table : List (Nat × String)) (c : Nat) : String :=
  match table.lookup c with
  | some n => n
  | none => unknownFallback c

/-- Modelled from the spec: the actual enumeration of the missing
`workout_activity` module has "on the order of 80+ variants"; only a
representative sample is materialized here — none of the theorems below
depends on the entries of this table. -/
def knownActivityTable : List (Nat × String) :=
  [(13, "Cycling"), (24, "Hiking"), (37, "Running"), (52, "Walking")]

/-- The Code Translator used by the Unit Parser. -/
def translateCode (c : Nat) : String :=
  translateWith knownActivityTable c

/-- One XML attribute as yielded by `quick_xml`'s `Attributes` iterator.
Values are `String`s: see the header comment (a `&str` input means every
attribute value is valid UTF-8). -/
structure Attr where
  key : String
  val : String
deriving DecidableEq

/-- One `quick_xml` event, as consumed by the loop
`while let Ok(event) = reader.read_event_into(&mut buf)`
(src/main.rs:136-234).  `Event::Empty` and `Event::Start` are handled by one
arm in the source and are merged into `startOrEmpty`; `err` is an `Err`
return of `read_event_into`, which exits the loop. -/
inductive XmlEvent where
  | startOrEmpty (name : String) (attrs : List Attr)
  | endTag (name : String)
  | eof
  | other
  | err
deriving DecidableEq

/-- The output `struct HealthRecord` (src/main.rs:22-33).  `SmallString` is an inline
small-string optimization over an ordinary string and is modelled as
`String`; the `HashMap` metadata is modelled as an association list with
replace-on-insert semantics (`mdInsert`). -/
structure HealthRecord where
  record_type : Option String
  unit : Option String
  value : Option String
  start_date : Option String
  end_date : Option String
  metadata : List (String × String)
deriving DecidableEq

/-- The mutable locals of one iteration of the `parse_records` closure
(src/main.rs:125-134). -/
structure PState where
  record_type : Option String := none
  value : Option String := none
  unit : Option String := none
  start_date : Option String := none
  end_date : Option String := none
  metadata : List (String × String) := []
  should_parse : Bool
deriving DecidableEq

/-- Model of `HashMap::insert`: replace the value when the key is present, add the
pair otherwise. -/
def mdInsert (m : List (String × String)) (k v : String) :
    List (String × String) :=
  match m with
  | [] => [(k, v)]
  | (k', v') :: rest =>
    if k' = k then (k, v) :: rest else (k', v') :: mdInsert rest k v

/-- The metadata allow-list `metadata_keys_to_include` (src/main.rs:109-113). -/
def metadata_keys_to_include : List String :=
  ["HKActivityType", "HKPhysicalEffortEstimationType"]

/-- The attribute loop of the `Record` branch (src/main.rs:140-192).
The source assigns `start_date` twice on a recent `startDate` attribute
(once in the recency block, once in the following `match`); the two
assignments store the same value and are collapsed into one here.
Returning without consuming the rest of the list models the `break`. -/
def processRecordAttrs (allowAll : Bool) (filter : List String)
    (recent : String → Bool) : List Attr → PState → PState
  | [], st => st
  | a :: rest, st =>
    if a.key = "type" then
      let sp := allowAll || filter.contains a.val
      let st' := { st with record_type := some a.val, should_parse := sp }
      if sp then processRecordAttrs allowAll filter recent rest st' else st'
    else if st.should_parse = false then
      processRecordAttrs allowAll filter recent rest st
    else if a.key = "startDate" then
      if recent a.val = false then
        processRecordAttrs allowAll filter recent rest
          { st with should_parse := false }
      else
        processRecordAttrs allowAll filter recent rest
          { st with start_date := some a.val }
    else if a.key = "value" then
      processRecordAttrs allowAll filter recent rest
        { st with value := some a.val }
    else if a.key = "unit" then
      processRecordAttrs allowAll filter recent rest
        { st with unit := some a.val }
    else if a.key = "endDate" then
      processRecordAttrs allowAll filter recent rest
        { st with end_date := some a.val }
    else
      processRecordAttrs allowAll filter recent rest st

/-- The attribute loop of the `MetadataEntry` branch (src/main.rs:197-211):
locate the `key` and `value` attributes (later occurrences overwrite). -/
def scanMetaAttrs : List Attr → Option String → Option String →
    Option String × Option String
  | [], k, v => (k, v)
  | a :: rest, k, v =>
    if a.key = "key" then scanMetaAttrs rest (some a.val) v
    else if a.key = "value" then scanMetaAttrs rest k (some a.val)
    else scanMetaAttrs rest k v

/-- The `MetadataEntry` handling (src/main.rs:193-224): translate an
activity-type code that parses as `u32`, then retain the pair only when the
key is on the allow-list. -/
def processMetaEntry (st : PState) (attrs : List Attr) : PState :=
  match scanMetaAttrs attrs none none with
  | (some k, some v) =>
    let v' := if k = "HKActivityType" then
        match parseU32 v.toList with
        | some code => translateCode code
        | none => v
      else v
    if metadata_keys_to_include.contains k then
      { st with metadata := mdInsert st.metadata k v' }
    else st
  | (_, _) => st

/-- The event loop of one record unit (src/main.rs:136-234).  `err`
(an `Err` from `read_event_into`) and `eof` end the loop, as does the
`Record` end tag. -/
def runEvents (allowAll : Bool) (filter : List String)
    (recent : String → Bool) : List XmlEvent → PState → PState
  | [], st => st
  | e :: rest, st =>
    match e with
    | XmlEvent.startOrEmpty name attrs =>
      if name = "Record" then
        runEvents allowAll filter recent rest
          (processRecordAttrs allowAll filter recent attrs st)
      else if name = "MetadataEntry" ∧ st.should_parse = true then
        runEvents allowAll filter recent rest (processMetaEntry st attrs)
      else
        runEvents allowAll filter recent rest st
    | XmlEvent.endTag name =>
      if name = "Record" then st
      else runEvents allowAll filter recent rest st
    | XmlEvent.eof => st
    | XmlEvent.other => runEvents allowAll filter recent rest st
    | XmlEvent.err => st

/-- Build the output record from the final locals (src/main.rs:237-244). -/
def toRecord (st : PState) : HealthRecord :=
  { record_type := st.record_type
    unit := st.unit
    value := st.value
    start_date := st.start_date
    end_date := st.end_date
    metadata := st.metadata }

/-- Initial per-unit state: `should_parse` starts as `allow_all` (src/main.rs:134). -/
def initState (allowAll : Bool) : PState :=
  { should_parse := allowAll }

/-- One iteration of the `parse_records` closure (src/main.rs:118-248):
run the event loop on the unit's events and emit `Some(record)` exactly when
`should_parse` survives.  `recent` is the recency predicate — in the source
the call `is_in_last_12_months(v_str)`, whose cutoff comes from the ambient
clock (see `is_in_last_12_months` for its exact model). -/
def processUnit (filter : List String) (recent : String → Bool)
    (events : List XmlEvent) : Option HealthRecord :=
  let allowAll := filter.isEmpty
  let st := runEvents allowAll filter recent events (initState allowAll)
  if st.should_parse then some (toRecord st) else none

/-- Final parser state of one unit (used to observe fields of units that
produce no record). -/
def processUnitState (filter : List String) (recent : String → Bool)
    (events : List XmlEvent) : PState :=
  runEvents filter.isEmpty filter recent events (initState filter.isEmpty)

/-- A well-formed record unit: the `Record` element with its attributes,
then its end tag. -/
def canonUnit (attrs : List Attr) : List XmlEvent :=
  [XmlEvent.startOrEmpty ("Record") attrs, XmlEvent.endTag ("Record")]

/-- The segmentation marker `"<Record "` (src/main.rs:108). -/
def marker : List Char := ['<', 'R', 'e', 'c', 'o', 'r', 'd', ' ']

/-- Rust `str::split` on the marker: scan left to right, cut at every
non-overlapping occurrence. -/
def splitMarkerAux : List Char → List Char → List (List Char)
  | [], acc => [acc.reverse]
  | c :: rest, acc =>
    if (c :: rest).take 8 = marker then
      acc.reverse :: splitMarkerAux (rest.drop 7) []
    else
      splitMarkerAux rest (c :: acc)
termination_by s _ => s.length
decreasing_by
  · simp only [List.length_drop, List.length_cons]
    omega
  · simp only [List.length_cons]
    omega

/-- The split call of `parse_records` (src/main.rs:108). -/
def splitMarker (s : List Char) : List (List Char) :=
  splitMarkerAux s []

/-- The top-level `parse_records` (src/main.rs:106-251): split the document on the record
marker, skip the prologue, re-prepend the marker to each chunk, tokenize and
parse each unit, keep the present results.  `rayon`'s indexed
`par_iter().map(...).filter_map(...).collect()` preserves the order of the
underlying vector, so the parallel pipeline is modelled by the corresponding
sequential one; `tokenize` stands for the external `quick_xml` reader. -/
def parse_records (tokenize : List Char → List XmlEvent)
    (recent : String → Bool) (xml : List Char) (filter : List String) :
    List HealthRecord :=
  (((splitMarker xml).drop 1).map
    (fun chunk => processUnit filter recent (tokenize (marker ++ chunk)))).filterMap id

/-- Translation of the spec sentence "an order-preserving fan-out/gather":
collect the present per-unit results in source order. -/
def orderPreservingGather (f : α → Option β) : List α → List β
  | [] => []
  | u :: us =>
    match f u with
    | some r => r :: orderPreservingGather f us
    | none => orderPreservingGather f us

/-- The raw activity-type value carried by one `MetadataEntry` element, if
any. -/
def entryActivityVal (attrs : List Attr) : Option String :=
  match scanMetaAttrs attrs none none with
  | (some k, some v) => if k = "HKActivityType" then some v else none
  | (_, _) => none

/-- All raw activity-type metadata values occurring in a unit's events. -/
def activityVals : List XmlEvent → List String
  | [] => []
  | XmlEvent.startOrEmpty n attrs :: rest =>
    if n = "MetadataEntry" then
      match entryActivityVal attrs with
      | some v => v :: activityVals rest
      | none => activityVals rest
    else activityVals rest
  | _ :: rest => activityVals rest

/-- A unit's `Record` attribute list authors the `type` attribute first, or
not at all (the shape the Apple exporter produces). -/
def typeFirst (attrs : List Attr) : Prop :=
  (∀ a ∈ attrs, a.key ≠ "type") ∨
  ∃ t rest, attrs = Attr.mk ("type") t :: rest ∧ ∀ a ∈ rest, a.key ≠ "type"

/-- Invariant of the metadata map: every key is on the allow-list, and every
activity-type value is the translation of (or, if unparseable, identical to)
some raw activity value of the unit. -/
def MdOk (raws : List String) (md : List (String × String)) : Prop :=
  ∀ kv ∈ md,
    (kv.1 = "HKActivityType" ∨ kv.1 = "HKPhysicalEffortEstimationType") ∧
    (kv.1 = "HKActivityType" → ∃ raw ∈ raws,
      (∃ code, parseU32 raw.toList = some code ∧
        kv.2 = translateCode code) ∨
      (parseU32 raw.toList = none ∧ kv.2 = raw))


theorem digit_toNat {c : Char} (h : c.isDigit = true) :
    48 ≤ c.toNat ∧ c.toNat ≤ 57 := by
  simp [Char.isDigit] at h
  exact h

theorem charBytes_of_digit {c : Char} (h : c.isDigit = true) :
    charBytes c = 1 := by
  have := digit_toNat h
  simp [charBytes]
  omega

theorem charBytes_dash : charBytes '-' = 1 := by decide

theorem takeBytes_cons_one {c : Char} (h : charBytes c = 1)
    (s : List Char) (n : Nat) :
    takeBytes (c :: s) (n + 1) = (takeBytes s n).map (fun l => c :: l) := by
  simp [takeBytes, h]

theorem dropBytes_cons_one {c : Char} (h : charBytes c = 1)
    (s : List Char) (n : Nat) :
    dropBytes (c :: s) (n + 1) = dropBytes s n := by
  simp [dropBytes, h]

theorem utf8Len_cons (c : Char) (s : List Char) :
    utf8Len (c :: s) = charBytes c + utf8Len s := by
  simp [utf8Len]

theorem utf8Len_ascii {s : List Char} (h : ∀ c ∈ s, charBytes c = 1) :
    utf8Len s = s.length := by
  induction s with
  | nil => rfl
  | cons c t ih =>
    rw [utf8Len_cons, h c (by simp), ih (fun x hx => h x (by simp [hx]))]
    simp [Nat.add_comm]

theorem takeBytes_ascii {s : List Char} (n : Nat)
    (h : ∀ c ∈ s, charBytes c = 1) (hn : n ≤ s.length) :
    takeBytes s n = some (s.take n) := by
  induction n generalizing s with
  | zero => simp [takeBytes]
  | succ m ih =>
    match s with
    | [] => simp at hn
    | c :: t =>
      rw [takeBytes_cons_one (h c (by simp))]
      rw [ih (fun x hx => h x (by simp [hx])) (by simpa using hn)]
      simp

theorem dropBytes_ascii {s : List Char} (n : Nat)
    (h : ∀ c ∈ s, charBytes c = 1) (hn : n ≤ s.length) :
    dropBytes s n = some (s.drop n) := by
  induction n generalizing s with
  | zero => simp [dropBytes]
  | succ m ih =>
    match s with
    | [] => simp at hn
    | c :: t =>
      rw [dropBytes_cons_one (h c (by simp))]
      rw [ih (fun x hx => h x (by simp [hx])) (by simpa using hn)]
      simp

theorem digit_ne_dash {c : Char} (h : c.isDigit = true) : c ≠ '-' := by
  intro he
  subst he
  simp [Char.isDigit] at h

theorem digit_ne_plus {c : Char} (h : c.isDigit = true) : c ≠ '+' := by
  intro he
  subst he
  simp [Char.isDigit] at h

theorem parseDigits_all {l : List Char} (hne : l ≠ [])
    (hd : allDigits l = true) : parseDigits l = some (digitsVal l) := by
  simp [parseDigits, hne, hd]

theorem parseI32_digits {l : List Char} (hne : l ≠ [])
    (hd : allDigits l = true) (hb : digitsVal l ≤ 2 ^ 31 - 1) :
    parseI32 l = some ((digitsVal l : Int)) := by
  match l, hne with
  | c :: t, _ =>
    have hc : c.isDigit = true := by
      simp [allDigits] at hd
      exact hd.1
    rw [parseI32]
    rw [if_neg (by simp [digit_ne_dash hc])]
    simp only [List.head?_cons]
    rw [if_neg (by simp [digit_ne_plus hc])]
    rw [parseDigits_all (by simp) hd]
    simp
    omega

theorem parseU32_digits {l : List Char} (hne : l ≠ [])
    (hd : allDigits l = true) (hb : digitsVal l < 2 ^ 32) :
    parseU32 l = some (digitsVal l) := by
  match l, hne with
  | c :: t, _ =>
    have hc : c.isDigit = true := by
      simp [allDigits] at hd
      exact hd.1
    rw [parseU32]
    simp only [List.head?_cons]
    rw [if_neg (by simp [digit_ne_plus hc])]
    rw [parseDigits_all (by simp) hd]
    simp
    omega

theorem digitsVal_two {a b : Char} (ha : a.isDigit = true)
    (hb : b.isDigit = true) : digitsVal [a, b] ≤ 99 := by
  have h1 := digit_toNat ha
  have h2 := digit_toNat hb
  simp [digitsVal]
  omega

theorem digitsVal_four {a b c d : Char} (ha : a.isDigit = true)
    (hb : b.isDigit = true) (hc : c.isDigit = true) (hd : d.isDigit = true) :
    digitsVal [a, b, c, d] ≤ 9999 := by
  have h1 := digit_toNat ha
  have h2 := digit_toNat hb
  have h3 := digit_toNat hc
  have h4 := digit_toNat hd
  simp [digitsVal]
  omega

theorem takeBytes_append_exact {l : List Char} (rest : List Char)
    (h : ∀ c ∈ l, charBytes c = 1) :
    takeBytes (l ++ rest) l.length = some l := by
  induction l with
  | nil => simp [takeBytes]
  | cons c t ih =>
    simp only [List.cons_append, List.length_cons]
    rw [takeBytes_cons_one (h c (by simp))]
    rw [ih (fun x hx => h x (by simp [hx]))]
    rfl

theorem dropBytes_append_exact {l : List Char} (rest : List Char)
    (h : ∀ c ∈ l, charBytes c = 1) :
    dropBytes (l ++ rest) l.length = some rest := by
  induction l with
  | nil => simp [dropBytes]
  | cons c t ih =>
    simp only [List.cons_append, List.length_cons]
    rw [dropBytes_cons_one (h c (by simp))]
    exact ih (fun x hx => h x (by simp [hx]))

/-- C4 (confirmed): for a date string whose first 7 characters are four
digits, a separator, and two digits, the recency filter returns exactly the
month-granularity window test: true iff the year exceeds the cutoff year
(that of the current instant minus 365 days), or equals it with month at or
past the cutoff month. -/
theorem c4_recency_month_window (cy : Int) (cm : Nat) (y1 y2 y3 y4 m1 m2 : Char)
    (rest : List Char)
    (h1 : y1.isDigit = true) (h2 : y2.isDigit = true)
    (h3 : y3.isDigit = true) (h4 : y4.isDigit = true)
    (h5 : m1.isDigit = true) (h6 : m2.isDigit = true) :
    is_in_last_12_months cy cm ([y1, y2, y3, y4, '-', m1, m2] ++ rest) =
      some (decide (cy < (digitsVal [y1, y2, y3, y4] : Int) ∨
        ((digitsVal [y1, y2, y3, y4] : Int) = cy ∧
          cm ≤ digitsVal [m1, m2]))) := by
  have hb1 := charBytes_of_digit h1
  have hb2 := charBytes_of_digit h2
  have hb3 := charBytes_of_digit h3
  have hb4 := charBytes_of_digit h4
  have hb5 := charBytes_of_digit h5
  have hb6 := charBytes_of_digit h6
  have hy : takeBytes ([y1, y2, y3, y4, '-', m1, m2] ++ rest) 4 =
      some [y1, y2, y3, y4] := by
    have := takeBytes_append_exact (l := [y1, y2, y3, y4])
      ('-' :: m1 :: m2 :: rest)
      (by intro x hx; simp at hx; rcases hx with h | h | h | h <;> simp [h, hb1, hb2, hb3, hb4])
    simpa using this
  have hdr : dropBytes ([y1, y2, y3, y4, '-', m1, m2] ++ rest) 5 =
      some (m1 :: m2 :: rest) := by
    have := dropBytes_append_exact (l := [y1, y2, y3, y4, '-'])
      (m1 :: m2 :: rest)
      (by intro x hx; simp at hx
          rcases hx with h | h | h | h | h <;>
            simp [h, hb1, hb2, hb3, hb4, charBytes_dash])
    simpa using this
  have hm : takeBytes (m1 :: m2 :: rest) 2 = some [m1, m2] := by
    have := takeBytes_append_exact (l := [m1, m2]) rest
      (by intro x hx; simp at hx; rcases hx with h | h <;> simp [h, hb5, hb6])
    simpa using this
  have hyv : parseI32 [y1, y2, y3, y4] =
      some ((digitsVal [y1, y2, y3, y4] : Int)) := by
    apply parseI32_digits (by simp)
    · simp [allDigits, h1, h2, h3, h4]
    · have := digitsVal_four h1 h2 h3 h4
      omega
  have hmv : parseU32 [m1, m2] = some (digitsVal [m1, m2]) := by
    apply parseU32_digits (by simp)
    · simp [allDigits, h5, h6]
    · have := digitsVal_two h5 h6
      omega
  have hlen : ¬ utf8Len ([y1, y2, y3, y4, '-', m1, m2] ++ rest) < 7 := by
    simp [List.cons_append, utf8Len_cons, hb1, hb2, hb3, hb4, hb5, hb6,
      charBytes_dash]
    omega
  unfold is_in_last_12_months
  rw [if_neg hlen, hy]
  dsimp only
  rw [hdr]
  dsimp only
  rw [hm]
  dsimp only
  rw [hyv, hmv]
  simp only [Option.getD_some]
  congr 1
  by_cases hlt : cy < (digitsVal [y1, y2, y3, y4] : Int)
  · simp [hlt]
  · by_cases heq : (digitsVal [y1, y2, y3, y4] : Int) = cy
    · simp [hlt, heq]
    · simp [hlt, heq]

/-- C3 (amended): on every ASCII input string the recency filter returns a
boolean without panicking; a string shorter than 7 bytes yields `false`, and
a string whose leading year field fails to parse yields `false` whenever the
cutoff year is positive (the failed parse becomes the year 0).  A failed
month parse becomes month 0 and therefore still yields `true` whenever the
parsed year exceeds the cutoff year.  The original claim's "for every input
string" is refuted by the non-ASCII byte-slicing panic. -/
theorem c3_recency_filter_ascii_total (cy : Int) (cm : Nat) (s : List Char)
    (hascii : ∀ c ∈ s, charBytes c = 1) :
    (is_in_last_12_months cy cm s).isSome = true ∧
    (s.length < 7 → is_in_last_12_months cy cm s = some false) ∧
    (0 < cy → 7 ≤ s.length → parseI32 (s.take 4) = none →
      is_in_last_12_months cy cm s = some false) ∧
    (7 ≤ s.length → ∀ y : Int, parseI32 (s.take 4) = some y → cy < y →
      is_in_last_12_months cy cm s = some true) := by
  have hl := utf8Len_ascii hascii
  by_cases h7 : s.length < 7
  · have hfalse : is_in_last_12_months cy cm s = some false := by
      unfold is_in_last_12_months
      rw [if_pos (by omega)]
    exact ⟨by simp [hfalse], fun _ => hfalse,
      fun _ hge _ => absurd hge (by omega),
      fun hge _ _ _ => absurd hge (by omega)⟩
  · have ht4 : takeBytes s 4 = some (s.take 4) :=
      takeBytes_ascii 4 hascii (by omega)
    have hd5 : dropBytes s 5 = some (s.drop 5) :=
      dropBytes_ascii 5 hascii (by omega)
    have ht2 : takeBytes (s.drop 5) 2 = some ((s.drop 5).take 2) := by
      apply takeBytes_ascii 2 (fun c hc => hascii c (List.mem_of_mem_drop hc))
      simp only [List.length_drop]
      omega
    have hmain : is_in_last_12_months cy cm s =
        some (if cy < (parseI32 (s.take 4)).getD 0 then true
          else if (parseI32 (s.take 4)).getD 0 = cy then
            decide (cm ≤ (parseU32 ((s.drop 5).take 2)).getD 0)
          else false) := by
      unfold is_in_last_12_months
      rw [if_neg (by omega), ht4]
      dsimp only
      rw [hd5]
      dsimp only
      rw [ht2]
    refine ⟨by simp [hmain], fun hc => absurd hc (by omega), ?_, ?_⟩
    · intro hcy _ hnone
      rw [hmain, hnone]
      simp only [Option.getD_none]
      rw [if_neg (by omega), if_neg (by omega)]
    · intro _ y hy hlt
      rw [hmain, hy]
      simp only [Option.getD_some]
      rw [if_pos hlt]

/-- C3 counterexample: the four-character, eight-byte string of four
U+03B1 characters passes the byte-length guard, but byte offset 5 falls
inside a character, so `date_str[5..7]` panics (modelled as `none`) instead
of returning a boolean, refuting "for every input string, the recency filter
returns a boolean without throwing or panicking". -/
theorem c3_counterexample :
    is_in_last_12_months 2024 6 ['α', 'α', 'α', 'α'] = none := by decide

theorem processRecordAttrs_metadata (aa : Bool) (f : List String)
    (r : String → Bool) (attrs : List Attr) : ∀ st : PState,
    (processRecordAttrs aa f r attrs st).metadata = st.metadata := by
  induction attrs with
  | nil => intro st; rfl
  | cons a rest ih =>
    intro st
    simp only [processRecordAttrs]
    repeat' split
    all_goals simp [ih]

theorem processRecordAttrs_skip (aa : Bool) (f : List String)
    (r : String → Bool) (a : Attr) (rest : List Attr) (st : PState)
    (hsp : st.should_parse = false) (hk : a.key ≠ "type") :
    processRecordAttrs aa f r (a :: rest) st =
      processRecordAttrs aa f r rest st := by
  simp [processRecordAttrs, hk, hsp]

theorem processRecordAttrs_sp_false_no_type (aa : Bool) (f : List String)
    (r : String → Bool) (attrs : List Attr) : ∀ st : PState,
    st.should_parse = false → (∀ a ∈ attrs, a.key ≠ "type") →
    processRecordAttrs aa f r attrs st = st := by
  induction attrs with
  | nil => intro st _ _; rfl
  | cons a rest ih =>
    intro st hsp hnt
    rw [processRecordAttrs_skip aa f r a rest st hsp (hnt a (by simp))]
    exact ih st hsp (fun x hx => hnt x (by simp [hx]))

theorem processRecordAttrs_pre_append (aa : Bool) (f : List String)
    (r : String → Bool) (pre l2 : List Attr) (st : PState)
    (hsp : st.should_parse = false) (hnt : ∀ a ∈ pre, a.key ≠ "type") :
    processRecordAttrs aa f r (pre ++ l2) st =
      processRecordAttrs aa f r l2 st := by
  induction pre with
  | nil => rfl
  | cons a rest ih =>
    rw [List.cons_append,
      processRecordAttrs_skip aa f r a (rest ++ l2) st hsp (hnt a (by simp))]
    exact ih (fun x hx => hnt x (by simp [hx]))

theorem processRecordAttrs_scan_sp (aa : Bool) (f : List String)
    (r : String → Bool) (attrs : List Attr) : ∀ st : PState,
    st.should_parse = true → (∀ a ∈ attrs, a.key ≠ "type") →
    ((processRecordAttrs aa f r attrs st).should_parse = true ↔
      ∀ a ∈ attrs, a.key = "startDate" → r a.val = true) := by
  induction attrs with
  | nil => intro st hsp _; simp [processRecordAttrs, hsp]
  | cons a rest ih =>
    intro st hsp hnt
    have hna : a.key ≠ "type" := hnt a (by simp)
    have hnr : ∀ x ∈ rest, x.key ≠ "type" := fun x hx => hnt x (by simp [hx])
    by_cases hsd : a.key = "startDate"
    · by_cases hr : r a.val = true
      · have hstep : processRecordAttrs aa f r (a :: rest) st =
            processRecordAttrs aa f r rest { st with start_date := some a.val } := by
          simp [processRecordAttrs, hna, hsp, hsd, hr]
        rw [hstep, ih _ (by simp [hsp]) hnr]
        constructor
        · intro h x hx hk
          rcases List.mem_cons.mp hx with h1 | h1
          · subst h1; exact hr
          · exact h x h1 hk
        · intro h x hx hk
          exact h x (by simp [hx]) hk
      · have hrf : r a.val = false := by
          cases hh : r a.val
          · rfl
          · exact absurd hh hr
        have hstep : processRecordAttrs aa f r (a :: rest) st =
            processRecordAttrs aa f r rest { st with should_parse := false } := by
          simp [processRecordAttrs, hna, hsp, hsd, hrf]
        rw [hstep,
          processRecordAttrs_sp_false_no_type aa f r rest _ (by simp) hnr]
        simp only [Bool.false_eq_true, false_iff]
        intro h
        exact hr (h a (by simp) hsd)
    · have hsp' : ∀ st' : PState, st'.should_parse = true →
          st'.start_date = st.start_date → True := fun _ _ _ => trivial
      have hstep : ∃ st' : PState, st'.should_parse = true ∧
          processRecordAttrs aa f r (a :: rest) st =
            processRecordAttrs aa f r rest st' := by
        by_cases hv : a.key = "value"
        · exact ⟨{ st with value := some a.val }, by simp [hsp],
            by simp [processRecordAttrs, hna, hsp, hsd, hv]⟩
        · by_cases hu : a.key = "unit"
          · exact ⟨{ st with unit := some a.val }, by simp [hsp],
              by simp [processRecordAttrs, hna, hsp, hsd, hv, hu]⟩
          · by_cases he : a.key = "endDate"
            · exact ⟨{ st with end_date := some a.val }, by simp [hsp],
                by simp [processRecordAttrs, hna, hsp, hsd, hv, hu, he]⟩
            · exact ⟨st, hsp,
                by simp [processRecordAttrs, hna, hsp, hsd, hv, hu, he]⟩
      obtain ⟨st', hsp', hstep⟩ := hstep
      rw [hstep, ih st' hsp' hnr]
      constructor
      · intro h x hx hk
        rcases List.mem_cons.mp hx with h1 | h1
        · subst h1; exact absurd hk hsd
        · exact h x h1 hk
      · intro h x hx hk
        exact h x (by simp [hx]) hk

theorem processRecordAttrs_type_first (aa : Bool) (f : List String)
    (r : String → Bool) (t : String) (rest : List Attr) (st : PState)
    (hnr : ∀ a ∈ rest, a.key ≠ "type") :
    ((processRecordAttrs aa f r (Attr.mk ("type") t :: rest) st).should_parse =
        true ↔
      ((aa = true ∨ t ∈ f) ∧
        ∀ a ∈ rest, a.key = "startDate" → r a.val = true)) := by
  have hcd : f.contains t = decide (t ∈ f) := List.elem_eq_mem t f
  cases aa with
  | true =>
    rw [show processRecordAttrs true f r (Attr.mk ("type") t :: rest) st =
        processRecordAttrs true f r rest
          { st with record_type := some t, should_parse := true } from by
      simp [processRecordAttrs]]
    rw [processRecordAttrs_scan_sp true f r rest _ (by simp) hnr]
    simp
  | false =>
    by_cases hm : t ∈ f
    · rw [show processRecordAttrs false f r (Attr.mk ("type") t :: rest) st =
          processRecordAttrs false f r rest
            { st with record_type := some t, should_parse := true } from by
        simp [processRecordAttrs, hcd, hm]]
      rw [processRecordAttrs_scan_sp false f r rest _ (by simp) hnr]
      simp [hm]
    · rw [show processRecordAttrs false f r (Attr.mk ("type") t :: rest) st =
          { st with record_type := some t, should_parse := false } from by
        simp [processRecordAttrs, hcd, hm]]
      simp [hm]

theorem processRecordAttrs_excluded (f : List String) (r : String → Bool)
    (attrs : List Attr) : ∀ st : PState, st.should_parse = false →
    (∀ a ∈ attrs, a.key = "type" → a.val ∉ f) →
    (processRecordAttrs false f r attrs st).should_parse = false ∧
    (processRecordAttrs false f r attrs st).value = st.value ∧
    (processRecordAttrs false f r attrs st).unit = st.unit ∧
    (processRecordAttrs false f r attrs st).start_date = st.start_date ∧
    (processRecordAttrs false f r attrs st).end_date = st.end_date ∧
    (processRecordAttrs false f r attrs st).metadata = st.metadata := by
  induction attrs with
  | nil => intro st hsp _; exact ⟨hsp, rfl, rfl, rfl, rfl, rfl⟩
  | cons a rest ih =>
    intro st hsp hex
    by_cases hk : a.key = "type"
    · have hcd : f.contains a.val = decide (a.val ∈ f) :=
        List.elem_eq_mem a.val f
      have hnm : a.val ∉ f := hex a (by simp) hk
      have hstep : processRecordAttrs false f r (a :: rest) st =
          { st with record_type := some a.val, should_parse := false } := by
        rw [show a = Attr.mk ("type") a.val from by
          cases a with
          | mk k v => simp at hk; simp [hk]]
        simp [processRecordAttrs, hcd, hnm]
      rw [hstep]
      exact ⟨rfl, rfl, rfl, rfl, rfl, rfl⟩
    · rw [processRecordAttrs_skip false f r a rest st hsp hk]
      exact ih st hsp (fun x hx => hex x (by simp [hx]))

theorem runEvents_canon (aa : Bool) (f : List String) (r : String → Bool)
    (attrs : List Attr) (st : PState) :
    runEvents aa f r (canonUnit attrs) st =
      processRecordAttrs aa f r attrs st := by
  simp [canonUnit, runEvents]

theorem runEvents_err_truncates (aa : Bool) (f : List String)
    (r : String → Bool) (pre post : List XmlEvent) : ∀ st : PState,
    runEvents aa f r (pre ++ XmlEvent.err :: post) st =
      runEvents aa f r pre st := by
  induction pre with
  | nil => intro st; simp [runEvents]
  | cons e rest ih =>
    intro st
    cases e with
    | startOrEmpty name attrs =>
      simp only [List.cons_append, runEvents]
      split
      · exact ih _
      · split
        · exact ih _
        · exact ih _
    | endTag name =>
      simp only [List.cons_append, runEvents]
      split
      · rfl
      · exact ih _
    | eof => simp [runEvents]
    | other =>
      simp only [List.cons_append, runEvents]
      exact ih _
    | err => simp [runEvents]

theorem runEvents_excluded (f : List String) (r : String → Bool)
    (es : List XmlEvent) : ∀ st : PState, st.should_parse = false →
    (∀ attrs, XmlEvent.startOrEmpty ("Record") attrs ∈ es →
      ∀ a ∈ attrs, a.key = "type" → a.val ∉ f) →
    (runEvents false f r es st).should_parse = false ∧
    (runEvents false f r es st).value = st.value ∧
    (runEvents false f r es st).unit = st.unit ∧
    (runEvents false f r es st).start_date = st.start_date ∧
    (runEvents false f r es st).end_date = st.end_date ∧
    (runEvents false f r es st).metadata = st.metadata := by
  induction es with
  | nil => intro st hsp _; exact ⟨hsp, rfl, rfl, rfl, rfl, rfl⟩
  | cons e rest ih =>
    intro st hsp hex
    have hexr : ∀ attrs, XmlEvent.startOrEmpty ("Record") attrs ∈ rest →
        ∀ a ∈ attrs, a.key = "type" → a.val ∉ f :=
      fun attrs ha => hex attrs (by simp [ha])
    cases e with
    | startOrEmpty name attrs =>
      by_cases hn : name = "Record"
      · subst hn
        have hstep : runEvents false f r
            (XmlEvent.startOrEmpty ("Record") attrs :: rest) st =
            runEvents false f r rest
              (processRecordAttrs false f r attrs st) := by
          simp [runEvents]
        have hattr := processRecordAttrs_excluded f r attrs st hsp
          (hex attrs (by simp))
        rw [hstep]
        have hres := ih (processRecordAttrs false f r attrs st) hattr.1 hexr
        refine ⟨hres.1, ?_, ?_, ?_, ?_, ?_⟩
        · rw [hres.2.1, hattr.2.1]
        · rw [hres.2.2.1, hattr.2.2.1]
        · rw [hres.2.2.2.1, hattr.2.2.2.1]
        · rw [hres.2.2.2.2.1, hattr.2.2.2.2.1]
        · rw [hres.2.2.2.2.2, hattr.2.2.2.2.2]
      · have hstep : runEvents false f r
            (XmlEvent.startOrEmpty name attrs :: rest) st =
            runEvents false f r rest st := by
          simp [runEvents, hn, hsp]
        rw [hstep]
        exact ih st hsp hexr
    | endTag name =>
      by_cases hn : name = "Record"
      · subst hn
        rw [show runEvents false f r
            (XmlEvent.endTag ("Record") :: rest) st = st from by
          simp [runEvents]]
        exact ⟨hsp, rfl, rfl, rfl, rfl, rfl⟩
      · rw [show runEvents false f r (XmlEvent.endTag name :: rest) st =
            runEvents false f r rest st from by simp [runEvents, hn]]
        exact ih st hsp hexr
    | eof =>
      rw [show runEvents false f r (XmlEvent.eof :: rest) st = st from by
        simp [runEvents]]
      exact ⟨hsp, rfl, rfl, rfl, rfl, rfl⟩
    | other =>
      rw [show runEvents false f r (XmlEvent.other :: rest) st =
          runEvents false f r rest st from by simp [runEvents]]
      exact ih st hsp hexr
    | err =>
      rw [show runEvents false f r (XmlEvent.err :: rest) st = st from by
        simp [runEvents]]
      exact ⟨hsp, rfl, rfl, rfl, rfl, rfl⟩

theorem processUnit_isSome (f : List String) (r : String → Bool)
    (es : List XmlEvent) :
    (processUnit f r es).isSome = (processUnitState f r es).should_parse := by
  unfold processUnit processUnitState
  dsimp only
  split <;> simp_all

/-- C1 (amended): for a record unit whose `Record` element lists the `type`
attribute first or not at all, a HealthRecord is produced if and only if the
type gate passes (the filter set is empty, or a `type` attribute whose value
is in the filter is present) and every `startDate` attribute on the element
passes the recency filter.  Contrary to the original claim, a unit whose
`type` attribute is absent is dropped only when the filter is non-empty, and
a unit whose `startDate` attribute is absent is not dropped at all: only a
present-and-stale `startDate` rejects the unit. -/
theorem c1_record_production_characterized (f : List String) (r : String → Bool) (attrs : List Attr)
    (h : typeFirst attrs) :
    ((processUnit f r (canonUnit attrs)).isSome = true ↔
      ((f = [] ∨ ∃ t, Attr.mk ("type") t ∈ attrs ∧ t ∈ f) ∧
        ∀ a ∈ attrs, a.key = "startDate" → r a.val = true)) := by
  rw [processUnit_isSome]
  unfold processUnitState
  rw [runEvents_canon]
  rcases h with hno | ⟨t, rest, hat, hnr⟩
  · by_cases hf : f = []
    · subst hf
      rw [processRecordAttrs_scan_sp _ _ r attrs _ (by simp [initState]) hno]
      simp
    · have haa : f.isEmpty = false := by
        simp [List.isEmpty_iff, hf]
      rw [haa, processRecordAttrs_sp_false_no_type _ _ r attrs _
        (by simp [initState]) hno]
      simp only [initState, Bool.false_eq_true, false_iff]
      intro hcon
      rcases hcon.1 with h1 | ⟨t, hmem, _⟩
      · exact hf h1
      · exact hno _ hmem rfl
  · subst hat
    rw [processRecordAttrs_type_first _ f r t rest _ hnr]
    constructor
    · rintro ⟨h1, h2⟩
      refine ⟨?_, ?_⟩
      · rcases h1 with h1 | h1
        · exact Or.inl (by simpa [List.isEmpty_iff] using h1)
        · exact Or.inr ⟨t, by simp, h1⟩
      · intro a ha hk
        rcases List.mem_cons.mp ha with h3 | h3
        · subst h3; simp at hk
        · exact h2 a h3 hk
    · rintro ⟨h1, h2⟩
      refine ⟨?_, fun a ha hk => h2 a (by simp [ha]) hk⟩
      rcases h1 with h1 | ⟨t', hmem, htf⟩
      · exact Or.inl (by simp [h1])
      · rcases List.mem_cons.mp hmem with h3 | h3
        · injection h3 with hk hv
          exact Or.inr (hv ▸ htf)
        · exact absurd rfl (hnr _ h3)

/-- C1 counterexample: with an empty type filter, a unit carrying neither a
`type` nor a `startDate` attribute still produces a HealthRecord (with every
field empty), refuting "a unit whose type attribute is absent, or whose
startDate is absent or stale, produces no record". -/
theorem c1_counterexample :
    processUnit [] (fun _ => false) (canonUnit []) =
      some { record_type := none
             unit := none
             value := none
             start_date := none
             end_date := none
             metadata := [] } := by
  decide

/-- C2 (amended): the unit parser never aborts on a malformed unit — a
reader error merely truncates the unit at the error point, so the result
equals parsing the prefix before the error and the remaining units are
processed normally.  Contrary to the original claim, a malformed unit does
not always yield "no record": with an empty filter the truncated prefix
still yields a (partial) record. -/
theorem c2_reader_error_truncates (f : List String) (r : String → Bool)
    (pre post : List XmlEvent) :
    processUnit f r (pre ++ XmlEvent.err :: post) = processUnit f r pre := by
  unfold processUnit
  dsimp only
  rw [runEvents_err_truncates]

/-- C2 counterexample: with an empty type filter, a unit whose very first
read is a reader error (a malformed unit) yields a HealthRecord rather than
no record, refuting "such a unit silently yields no record". -/
theorem c2_counterexample :
    processUnit [] (fun _ => false) [XmlEvent.err] =
      some { record_type := none
             unit := none
             value := none
             start_date := none
             end_date := none
             metadata := [] } := by
  decide

/-- C5 (confirmed): with a non-empty filter, a unit all of whose `type`
attribute values fall outside the filter never records any other attribute
and never touches its `MetadataEntry` elements: the final parser state has
empty `value`, `unit`, `startDate`, `endDate` and an empty metadata map, and
the unit contributes no record. -/
theorem c5_excluded_type_short_circuit (f : List String) (r : String → Bool) (es : List XmlEvent)
    (hne : f ≠ [])
    (hex : ∀ attrs, XmlEvent.startOrEmpty ("Record") attrs ∈ es →
      ∀ a ∈ attrs, a.key = "type" → a.val ∉ f) :
    (processUnitState f r es).value = none ∧
    (processUnitState f r es).unit = none ∧
    (processUnitState f r es).start_date = none ∧
    (processUnitState f r es).end_date = none ∧
    (processUnitState f r es).metadata = [] ∧
    processUnit f r es = none := by
  have haa : f.isEmpty = false := by simp [List.isEmpty_iff, hne]
  have hrun := runEvents_excluded f r es (initState false) rfl hex
  have hst : processUnitState f r es =
      runEvents false f r es (initState false) := by
    unfold processUnitState
    rw [haa]
  have hnone : processUnit f r es = none := by
    unfold processUnit
    dsimp only
    rw [haa]
    rw [if_neg (by simp [hrun.1])]
  rw [hst]
  exact ⟨hrun.2.1, hrun.2.2.1, hrun.2.2.2.1, hrun.2.2.2.2.1,
    hrun.2.2.2.2.2, hnone⟩

/-- C6 (amended): with a non-empty filter the parse result is NOT
independent of attribute order — `should_parse` starts false, so every
attribute authored before the `type` attribute is skipped: the unit parses
exactly as if those attributes were absent.  The value, unit, startDate and
endDate attributes are therefore captured only when authored after `type`. -/
theorem c6_pre_type_attributes_ignored (f : List String) (r : String → Bool)
    (pre rest : List Attr) (t : String) (hne : f ≠ [])
    (hpre : ∀ a ∈ pre, a.key ≠ "type") :
    processUnit f r (canonUnit (pre ++ Attr.mk ("type") t :: rest)) =
      processUnit f r (canonUnit (Attr.mk ("type") t :: rest)) := by
  have haa : f.isEmpty = false := by simp [List.isEmpty_iff, hne]
  unfold processUnit
  dsimp only
  rw [haa, runEvents_canon, runEvents_canon,
    processRecordAttrs_pre_append false f r pre _ _ (by simp [initState]) hpre]

/-- C6 counterexample: swapping the order of the `startDate` and `type`
attributes of the same unit changes the parse result (the startDate authored
before `type` is lost), refuting "permuting the unit's attributes yields the
same optional HealthRecord". -/
theorem c6_counterexample :
    processUnit ["A"] (fun v => v == "R")
        (canonUnit [Attr.mk ("startDate") "R", Attr.mk ("type") "A"]) ≠
      processUnit ["A"] (fun v => v == "R")
        (canonUnit [Attr.mk ("type") "A", Attr.mk ("startDate") "R"]) := by
  decide

/-- C10 (confirmed): for any retained unit, the `value` attribute is
stored verbatim as a string — for every string `v`, including non-numeric
payloads such as sleep-stage labels, the produced record's value field is
exactly `some v`; nothing is parsed to a floating-point number. -/
theorem c10_value_stored_verbatim (f : List String) (r : String → Bool) (t v : String)
    (h : f = [] ∨ t ∈ f) :
    processUnit f r (canonUnit [Attr.mk ("type") t, Attr.mk ("value") v]) =
      some { record_type := some t
             unit := none
             value := some v
             start_date := none
             end_date := none
             metadata := [] } := by
  have hcd : f.contains t = decide (t ∈ f) := List.elem_eq_mem t f
  have hsp : (f.isEmpty || f.contains t) = true := by
    rcases h with h | h
    · simp [h]
    · simp [hcd, h]
  unfold processUnit
  dsimp only
  rw [runEvents_canon]
  have hstep : processRecordAttrs f.isEmpty f r
      [Attr.mk ("type") t, Attr.mk ("value") v] (initState f.isEmpty) =
      { record_type := some t
        unit := none
        value := some v
        start_date := none
        end_date := none
        metadata := []
        should_parse := true } := by
    cases hb : f.isEmpty
    · rw [hb] at hsp
      simp at hsp
      simp [processRecordAttrs, initState, hcd, hsp]
    · have : f = [] := by simpa [List.isEmpty_iff] using hb
      subst this
      simp [processRecordAttrs, initState]
  rw [hstep]
  rfl

theorem orderPreservingGather_eq_filterMap {α β : Type} (g : α → Option β)
    (l : List α) : orderPreservingGather g l = l.filterMap g := by
  induction l with
  | nil => rfl
  | cons a rest ih =>
    rw [orderPreservingGather, List.filterMap_cons]
    cases g a <;> simp [ih]

theorem parse_records_eq_filterMap (tokenize : List Char → List XmlEvent)
    (recent : String → Bool) (xml : List Char) (f : List String) :
    parse_records tokenize recent xml f =
      ((splitMarker xml).drop 1).filterMap
        (fun chunk => processUnit f recent (tokenize (marker ++ chunk))) := by
  unfold parse_records
  rw [List.filterMap_map]
  rfl

/-- C7 (confirmed): for every document and filter, the output length is at
most the number of segmented record units, and the output equals the
order-preserving gather of the present per-unit results over the segmented
units in source order. -/
theorem c7_output_order_and_count (tokenize : List Char → List XmlEvent)
    (recent : String → Bool) (xml : List Char) (f : List String) :
    (parse_records tokenize recent xml f).length ≤
      ((splitMarker xml).drop 1).length ∧
    parse_records tokenize recent xml f =
      orderPreservingGather
        (fun chunk => processUnit f recent (tokenize (marker ++ chunk)))
        ((splitMarker xml).drop 1) := by
  rw [parse_records_eq_filterMap, orderPreservingGather_eq_filterMap]
  exact ⟨List.length_filterMap_le _ _, rfl⟩

theorem mem_mdInsert (k v : String) :
    ∀ (m : List (String × String)) (kv : String × String),
    kv ∈ mdInsert m k v → kv = (k, v) ∨ kv ∈ m := by
  intro m
  induction m with
  | nil => intro kv hkv; simp [mdInsert] at hkv; exact Or.inl hkv
  | cons p rest ih =>
    intro kv hkv
    rw [mdInsert] at hkv
    by_cases hk : p.1 = k
    · rw [if_pos hk] at hkv
      rcases List.mem_cons.mp hkv with h | h
      · exact Or.inl h
      · exact Or.inr (by simp [h])
    · rw [if_neg hk] at hkv
      rcases List.mem_cons.mp hkv with h | h
      · exact Or.inr (by simp [h])
      · rcases ih kv h with h1 | h1
        · exact Or.inl h1
        · exact Or.inr (by simp [h1])

theorem processMetaEntry_mdOk (raws : List String) (st : PState)
    (attrs : List Attr) (hmd : MdOk raws st.metadata)
    (hact : ∀ v, entryActivityVal attrs = some v → v ∈ raws) :
    MdOk raws (processMetaEntry st attrs).metadata := by
  unfold processMetaEntry
  rcases hscan : scanMetaAttrs attrs none none with ⟨ko, vo⟩
  cases ko with
  | none => exact hmd
  | some k =>
    cases vo with
    | none => exact hmd
    | some v =>
      dsimp only
      split
      · rename_i hinc
        intro kv hkv
        rcases mem_mdInsert k _ st.metadata kv hkv with heq | hold
        · subst heq
          have hk2 : k = "HKActivityType" ∨
              k = "HKPhysicalEffortEstimationType" := by
            simpa [metadata_keys_to_include] using hinc
          refine ⟨hk2, ?_⟩
          intro hka
          simp only at hka
          subst hka
          have hv : entryActivityVal attrs = some v := by
            unfold entryActivityVal
            rw [hscan]
            simp
          refine ⟨v, hact v hv, ?_⟩
          cases hp : parseU32 v.toList with
          | none => exact Or.inr ⟨rfl, by simp⟩
          | some code => exact Or.inl ⟨code, rfl, by simp⟩
        · exact hmd kv hold
      · exact hmd

theorem activityVals_subset_cons (e : XmlEvent) (rest : List XmlEvent) :
    ∀ v ∈ activityVals rest, v ∈ activityVals (e :: rest) := by
  intro v hv
  cases e with
  | startOrEmpty n attrs =>
    by_cases hn : n = "MetadataEntry"
    · subst hn
      cases hev : entryActivityVal attrs with
      | none => simpa [activityVals, hev] using hv
      | some w => simp [activityVals, hev, hv]
    · simpa [activityVals, hn] using hv
  | endTag n => simpa [activityVals] using hv
  | eof => simpa [activityVals] using hv
  | other => simpa [activityVals] using hv
  | err => simpa [activityVals] using hv

theorem activityVals_mem (es : List XmlEvent) :
    ∀ (attrs : List Attr) (v : String),
    XmlEvent.startOrEmpty ("MetadataEntry") attrs ∈ es →
    entryActivityVal attrs = some v → v ∈ activityVals es := by
  induction es with
  | nil => intro attrs v h _; simp at h
  | cons e rest ih =>
    intro attrs v hmem hev
    rcases List.mem_cons.mp hmem with h | h
    · subst h
      simp [activityVals, hev]
    · exact activityVals_subset_cons e rest v (ih attrs v h hev)

theorem runEvents_mdOk (raws : List String) (aa : Bool) (f : List String)
    (r : String → Bool) (es : List XmlEvent) : ∀ st : PState,
    MdOk raws st.metadata →
    (∀ attrs, XmlEvent.startOrEmpty ("MetadataEntry") attrs ∈ es →
      ∀ v, entryActivityVal attrs = some v → v ∈ raws) →
    MdOk raws (runEvents aa f r es st).metadata := by
  induction es with
  | nil => intro st hmd _; exact hmd
  | cons e rest ih =>
    intro st hmd hact
    have hactr : ∀ attrs,
        XmlEvent.startOrEmpty ("MetadataEntry") attrs ∈ rest →
        ∀ v, entryActivityVal attrs = some v → v ∈ raws :=
      fun attrs ha => hact attrs (by simp [ha])
    cases e with
    | startOrEmpty name attrs =>
      by_cases hn : name = "Record"
      · subst hn
        rw [show runEvents aa f r
            (XmlEvent.startOrEmpty ("Record") attrs :: rest) st =
            runEvents aa f r rest
              (processRecordAttrs aa f r attrs st) from by
          simp [runEvents]]
        apply ih _ _ hactr
        rw [processRecordAttrs_metadata]
        exact hmd
      · by_cases hme : name = "MetadataEntry" ∧ st.should_parse = true
        · rw [show runEvents aa f r
              (XmlEvent.startOrEmpty name attrs :: rest) st =
              runEvents aa f r rest (processMetaEntry st attrs) from by
            simp [runEvents, hn, hme]]
          apply ih _ _ hactr
          apply processMetaEntry_mdOk raws st attrs hmd
          intro v hv
          exact hact attrs (by simp [hme.1]) v hv
        · rw [show runEvents aa f r
              (XmlEvent.startOrEmpty name attrs :: rest) st =
              runEvents aa f r rest st from by
            simp only [runEvents]
            rw [if_neg (by simp [hn]), if_neg hme]]
          exact ih st hmd hactr
    | endTag name =>
      by_cases hn : name = "Record"
      · subst hn
        rw [show runEvents aa f r (XmlEvent.endTag ("Record") :: rest) st =
            st from by simp [runEvents]]
        exact hmd
      · rw [show runEvents aa f r (XmlEvent.endTag name :: rest) st =
            runEvents aa f r rest st from by simp [runEvents, hn]]
        exact ih st hmd hactr
    | eof =>
      rw [show runEvents aa f r (XmlEvent.eof :: rest) st = st from by
        simp [runEvents]]
      exact hmd
    | other =>
      rw [show runEvents aa f r (XmlEvent.other :: rest) st =
          runEvents aa f r rest st from by simp [runEvents]]
      exact ih st hmd hactr
    | err =>
      rw [show runEvents aa f r (XmlEvent.err :: rest) st = st from by
        simp [runEvents]]
      exact hmd

/-- C8 (confirmed): every key in a retained record's metadata map is on
the fixed allow-list, and — whenever the unit's raw activity-type values are
numeric — the value stored under the activity-type key is the Code
Translator's name for a numeric code read from the unit. -/
theorem c8_metadata_allowlist_and_translation (f : List String) (r : String → Bool) (es : List XmlEvent)
    (rec : HealthRecord) (hrec : processUnit f r es = some rec) :
    (∀ kv ∈ rec.metadata, kv.1 = "HKActivityType" ∨
      kv.1 = "HKPhysicalEffortEstimationType") ∧
    ((∀ raw ∈ activityVals es, (parseU32 raw.toList).isSome = true) →
      ∀ v, ("HKActivityType", v) ∈ rec.metadata →
        ∃ raw ∈ activityVals es, ∃ code,
          parseU32 raw.toList = some code ∧ v = translateCode code) := by
  have hmdeq : rec.metadata =
      (runEvents f.isEmpty f r es (initState f.isEmpty)).metadata := by
    unfold processUnit at hrec
    dsimp only at hrec
    split at hrec
    · injection hrec with h
      rw [← h]
      rfl
    · exact absurd hrec (by simp)
  have hmain : MdOk (activityVals es)
      (runEvents f.isEmpty f r es (initState f.isEmpty)).metadata := by
    apply runEvents_mdOk
    · intro kv hkv
      simp [initState] at hkv
    · intro attrs hmem v hv
      exact activityVals_mem es attrs v hmem hv
  constructor
  · intro kv hkv
    rw [hmdeq] at hkv
    exact (hmain kv hkv).1
  · intro hnum v hv
    rw [hmdeq] at hv
    obtain ⟨raw, hrawmem, hdisj⟩ := (hmain ("HKActivityType", v) hv).2 rfl
    rcases hdisj with ⟨code, hp, hveq⟩ | ⟨hpn, _⟩
    · exact ⟨raw, hrawmem, code, hp, hveq⟩
    · have := hnum raw hrawmem
      rw [hpn] at this
      simp at this

theorem lookup_mem (l : List (Nat × String)) (a : Nat) (b : String) :
    l.lookup a = some b → (a, b) ∈ l := by
  induction l with
  | nil => intro h; simp [List.lookup] at h
  | cons p rest ih =>
    intro h
    cases p with
    | mk k v =>
      rw [List.lookup] at h
      by_cases hk : a == k
      · rw [hk] at h
        simp only [Option.some.injEq] at h
        have : a = k := by simpa using hk
        simp [this, ← h]
      · have hk' : (a == k) = false := by
          cases hkk : (a == k)
          · rfl
          · exact absurd (by simp [hkk]) hk
        rw [hk'] at h
        exact List.mem_cons.mpr (Or.inr (ih h))

theorem unknownFallback_data (c : Nat) :
    (unknownFallback c).data =
      "Unknown(".data ++ (toString c).data ++ [')'] := rfl

theorem unknownFallback_marker (c : Nat) :
    (unknownFallback c).data.take 8 = "Unknown(".data := by
  rw [unknownFallback_data]
  rw [List.append_assoc]
  have h8 : ("Unknown(".data).length = 8 := by decide
  rw [← h8, List.take_left]

/-- C9 (confirmed, against the spec-modelled translator): for every table
of known codes whose names are non-empty and do not begin with the fallback
marker, translation is total and non-empty for every code, and a code
outside the table maps to the fallback — which stringifies the code, carries
the recognizable marker, and differs from every known name. -/
theorem c9_translator_total (table : List (Nat × String)) (c : Nat)
    (hwf : ∀ p ∈ table, p.2 ≠ "" ∧ p.2.data.take 8 ≠ "Unknown(".data) :
    translateWith table c ≠ "" ∧
    (table.lookup c = none →
      translateWith table c = unknownFallback c ∧
      (unknownFallback c).data.take 8 = "Unknown(".data ∧
      ∀ p ∈ table, translateWith table c ≠ p.2) := by
  constructor
  · unfold translateWith
    cases hl : table.lookup c with
    | some n =>
      have := (hwf _ (lookup_mem table c n hl)).1
      simpa using this
    | none =>
      dsimp only
      intro he
      have : (unknownFallback c).data = [] := by rw [he]
      rw [unknownFallback_data] at this
      simp at this
  · intro hnone
    have heq : translateWith table c = unknownFallback c := by
      unfold translateWith
      rw [hnone]
    refine ⟨heq, unknownFallback_marker c, ?_⟩
    intro p hp he
    have h1 := (hwf p hp).2
    rw [← he, heq] at h1
    exact h1 (unknownFallback_marker c)

/-- Witness for C9 at the modelled table and the unknown code 200. -/
theorem c9_witness :
    (∀ p ∈ knownActivityTable, p.2 ≠ "" ∧
      p.2.data.take 8 ≠ "Unknown(".data) ∧
    (translateWith knownActivityTable 200 ≠ "" ∧
      (knownActivityTable.lookup 200 = none →
        translateWith knownActivityTable 200 = unknownFallback 200 ∧
        (unknownFallback 200).data.take 8 = "Unknown(".data ∧
        ∀ p ∈ knownActivityTable,
          translateWith knownActivityTable 200 ≠ p.2)) :=
  ⟨by decide, c9_translator_total knownActivityTable 200 (by decide)⟩

/-- Witness for C1 at a concrete unit. -/
theorem c1_witness :
    typeFirst [Attr.mk ("type") ("A"), Attr.mk ("startDate") ("R")] ∧
    ((processUnit [("A")] (fun v => v == "R")
        (canonUnit [Attr.mk ("type") ("A"),
          Attr.mk ("startDate") ("R")])).isSome = true ↔
      (([("A")] = [] ∨ ∃ t, Attr.mk ("type") t ∈
          [Attr.mk ("type") ("A"), Attr.mk ("startDate") ("R")] ∧
          t ∈ [("A")]) ∧
        ∀ a ∈ [Attr.mk ("type") ("A"), Attr.mk ("startDate") ("R")],
          a.key = "startDate" → (fun v => v == "R") a.val = true)) :=
  ⟨Or.inr ⟨"A", [Attr.mk ("startDate") ("R")], rfl, by decide⟩,
    c1_record_production_characterized [("A")] (fun v => v == "R") _
      (Or.inr ⟨"A", [Attr.mk ("startDate") ("R")], rfl, by decide⟩)⟩

/-- Witness for C3 at a concrete ASCII date string. -/
theorem c3_witness :
    (∀ c ∈ ("2024-01-15 00:00:00").toList, charBytes c = 1) ∧
    ((is_in_last_12_months 2023 6 ("2024-01-15 00:00:00").toList).isSome =
        true ∧
      (("2024-01-15 00:00:00").toList.length < 7 →
        is_in_last_12_months 2023 6 ("2024-01-15 00:00:00").toList =
          some false) ∧
      (0 < (2023 : Int) → 7 ≤ ("2024-01-15 00:00:00").toList.length →
        parseI32 (("2024-01-15 00:00:00").toList.take 4) = none →
        is_in_last_12_months 2023 6 ("2024-01-15 00:00:00").toList =
          some false) ∧
      (7 ≤ ("2024-01-15 00:00:00").toList.length → ∀ y : Int,
        parseI32 (("2024-01-15 00:00:00").toList.take 4) = some y →
        2023 < y →
        is_in_last_12_months 2023 6 ("2024-01-15 00:00:00").toList =
          some true)) :=
  ⟨by decide, c3_recency_filter_ascii_total 2023 6 (("2024-01-15 00:00:00").toList) (by decide)⟩

/-- Witness for C4 at a concrete date string. -/
theorem c4_witness :
    (Char.isDigit '2' = true ∧ Char.isDigit '0' = true ∧
      Char.isDigit '2' = true ∧ Char.isDigit '5' = true ∧
      Char.isDigit '0' = true ∧ Char.isDigit '9' = true) ∧
    is_in_last_12_months 2024 10 (['2', '0', '2', '5', '-', '0', '9'] ++
        (" 00:00:00 +0000").toList) =
      some (decide ((2024 : Int) < (digitsVal ['2', '0', '2', '5'] : Int) ∨
        ((digitsVal ['2', '0', '2', '5'] : Int) = 2024 ∧
          (10 : Nat) ≤ digitsVal ['0', '9']))) :=
  ⟨by decide, c4_recency_month_window 2024 10 '2' '0' '2' '5' '0' '9'
    ((" 00:00:00 +0000").toList) (by decide) (by decide) (by decide)
    (by decide) (by decide) (by decide)⟩

/-- Witness for C5 at a concrete excluded unit carrying metadata. -/
theorem c5_witness :
    ([("B")] ≠ ([] : List String)) ∧
    ((processUnitState [("B")] (fun _ => true)
        [XmlEvent.startOrEmpty ("Record") [Attr.mk ("type") ("A")],
          XmlEvent.startOrEmpty ("MetadataEntry")
            [Attr.mk ("key") ("HKActivityType"),
              Attr.mk ("value") ("37")],
          XmlEvent.endTag ("Record")]).value = none ∧
      (processUnitState [("B")] (fun _ => true)
        [XmlEvent.startOrEmpty ("Record") [Attr.mk ("type") ("A")],
          XmlEvent.startOrEmpty ("MetadataEntry")
            [Attr.mk ("key") ("HKActivityType"),
              Attr.mk ("value") ("37")],
          XmlEvent.endTag ("Record")]).unit = none ∧
      (processUnitState [("B")] (fun _ => true)
        [XmlEvent.startOrEmpty ("Record") [Attr.mk ("type") ("A")],
          XmlEvent.startOrEmpty ("MetadataEntry")
            [Attr.mk ("key") ("HKActivityType"),
              Attr.mk ("value") ("37")],
          XmlEvent.endTag ("Record")]).start_date = none ∧
      (processUnitState [("B")] (fun _ => true)
        [XmlEvent.startOrEmpty ("Record") [Attr.mk ("type") ("A")],
          XmlEvent.startOrEmpty ("MetadataEntry")
            [Attr.mk ("key") ("HKActivityType"),
              Attr.mk ("value") ("37")],
          XmlEvent.endTag ("Record")]).end_date = none ∧
      (processUnitState [("B")] (fun _ => true)
        [XmlEvent.startOrEmpty ("Record") [Attr.mk ("type") ("A")],
          XmlEvent.startOrEmpty ("MetadataEntry")
            [Attr.mk ("key") ("HKActivityType"),
              Attr.mk ("value") ("37")],
          XmlEvent.endTag ("Record")]).metadata = [] ∧
      processUnit [("B")] (fun _ => true)
        [XmlEvent.startOrEmpty ("Record") [Attr.mk ("type") ("A")],
          XmlEvent.startOrEmpty ("MetadataEntry")
            [Attr.mk ("key") ("HKActivityType"),
              Attr.mk ("value") ("37")],
          XmlEvent.endTag ("Record")] = none) :=
  ⟨by decide, c5_excluded_type_short_circuit [("B")] (fun _ => true) _ (by decide)
    (by
      intro attrs hmem
      simp at hmem
      subst hmem
      decide)⟩

/-- Witness for C6 at a concrete attribute list. -/
theorem c6_witness :
    ([("A")] ≠ ([] : List String)) ∧
    (∀ a ∈ [Attr.mk ("unit") ("kg")], a.key ≠ "type") ∧
    processUnit [("A")] (fun _ => true)
        (canonUnit ([Attr.mk ("unit") ("kg")] ++
          Attr.mk ("type") ("A") :: [])) =
      processUnit [("A")] (fun _ => true)
        (canonUnit (Attr.mk ("type") ("A") :: [])) :=
  ⟨by decide, by decide,
    c6_pre_type_attributes_ignored [("A")] (fun _ => true) [Attr.mk ("unit") ("kg")] [] ("A")
      (by decide) (by decide)⟩

/-- Witness for C8 at a concrete unit with an activity-type entry. -/
theorem c8_witness :
    (processUnit [("A")] (fun _ => true)
        [XmlEvent.startOrEmpty ("Record") [Attr.mk ("type") ("A")],
          XmlEvent.startOrEmpty ("MetadataEntry")
            [Attr.mk ("key") ("HKActivityType"),
              Attr.mk ("value") ("37")],
          XmlEvent.endTag ("Record")] =
      some { record_type := some ("A")
             unit := none
             value := none
             start_date := none
             end_date := none
             metadata := [("HKActivityType", "Running")] }) ∧
    ((∀ kv ∈ [(("HKActivityType" : String), ("Running" : String))],
        kv.1 = "HKActivityType" ∨
        kv.1 = "HKPhysicalEffortEstimationType") ∧
      ((∀ raw ∈ activityVals
          [XmlEvent.startOrEmpty ("Record") [Attr.mk ("type") ("A")],
            XmlEvent.startOrEmpty ("MetadataEntry")
              [Attr.mk ("key") ("HKActivityType"),
                Attr.mk ("value") ("37")],
            XmlEvent.endTag ("Record")],
          (parseU32 raw.toList).isSome = true) →
        ∀ v, (("HKActivityType" : String), v) ∈
            [(("HKActivityType" : String), ("Running" : String))] →
          ∃ raw ∈ activityVals
            [XmlEvent.startOrEmpty ("Record") [Attr.mk ("type") ("A")],
              XmlEvent.startOrEmpty ("MetadataEntry")
                [Attr.mk ("key") ("HKActivityType"),
                  Attr.mk ("value") ("37")],
              XmlEvent.endTag ("Record")],
            ∃ code, parseU32 raw.toList = some code ∧
              v = translateCode code)) := by
  have h := c8_metadata_allowlist_and_translation [("A")] (fun _ => true)
    [XmlEvent.startOrEmpty ("Record") [Attr.mk ("type") ("A")],
      XmlEvent.startOrEmpty ("MetadataEntry")
        [Attr.mk ("key") ("HKActivityType"), Attr.mk ("value") ("37")],
      XmlEvent.endTag ("Record")]
    { record_type := some ("A")
      unit := none
      value := none
      start_date := none
      end_date := none
      metadata := [("HKActivityType", "Running")] } (by decide)
  exact ⟨by decide, h⟩

/-- Witness for C10 with a non-numeric sleep-stage payload. -/
theorem c10_witness :
    (([] : List String) = [] ∨
      ("HKCategoryTypeIdentifierSleepAnalysis" : String) ∈
        ([] : List String)) ∧
    processUnit [] (fun _ => true)
        (canonUnit [Attr.mk ("type") ("HKCategoryTypeIdentifierSleepAnalysis"),
          Attr.mk ("value") ("HKCategoryValueSleepAnalysisAsleepDeep")]) =
      some { record_type := some ("HKCategoryTypeIdentifierSleepAnalysis")
             unit := none
             value := some ("HKCategoryValueSleepAnalysisAsleepDeep")
             start_date := none
             end_date := none
             metadata := [] } :=
  ⟨Or.inl rfl, c10_value_stored_verbatim [] (fun _ => true)
    ("HKCategoryTypeIdentifierSleepAnalysis")
    ("HKCategoryValueSleepAnalysisAsleepDeep") (Or.inl rfl)⟩
